import Mathlib

/-!
Verification development for the upix backend (Cloudflare Workers, Rust).

Shallow embedding of the core of the repository:
  * `src/lib/src/lib.rs`  — shared `upscale_image`, `ApiError`;
  * `src/api/src/lib.rs`  — ingest path: format/size/dimension validation,
    SHA-256 content addressing, the upscale pyramid fan-out upload;
  * `src/dyn/src/lib.rs`  — on-demand path: request-path parsing, base-image
    fetch, lazy upscaling.

Machine integers (`u32`, `u64`, `usize`) are modelled as `Nat` with explicit
`% 2^32` (resp. `2^64`) where Rust release-mode wrapping can occur.  The
`f64` arithmetic inside the image crate's `resize_dimensions` and inside the
aspect-ratio check is modelled exactly over `ℚ` extended with NaN/∞ values;
on every input domain used by the theorems below the `f64` computation is
exact (integer ratios, products below 2^53), so the rational model agrees
with the floating-point code there.  External collaborators (the R2 bucket,
the PNG codec of the image crate) are modelled as explicit parameters.
-/

namespace Upix

/-- 2^32, the modulus of Rust `u32` arithmetic. -/
def U32 : Nat := 4294967296

/-- 2^32 - 1, `u32::MAX`. -/
def U32MAX : Nat := 4294967295

/-- 2^64 - 1, `u64::MAX`. -/
def U64MAX : Nat := 18446744073709551615

/-- Embeds `ApiError` from `src/lib/src/lib.rs`: an HTTP status and an
optional JSON message. -/
structure ApiError where
  status : Nat
  message : Option String
  deriving DecidableEq, Repr

/-- Embeds `ApiError::new` (status with a message). -/
def ApiError.new (status : Nat) (msg : String) : ApiError :=
  ⟨status, some msg⟩

/-- Embeds `ApiError::no_msg` (status with no message; `to_response` sends an
empty body with just the status code). -/
def ApiError.no_msg (status : Nat) : ApiError :=
  ⟨status, none⟩

/-- A decoded image (`image::DynamicImage`): dimensions plus pixel contents.
`pix x y` is the pixel at column `x`, row `y` (an abstract pixel value). -/
structure Image where
  width : Nat
  height : Nat
  pix : Nat → Nat → Nat

/-! ### Exact model of the `f64` values arising in `resize_dimensions`

All floats appearing there are nonnegative; we model them as `ℚ` plus the
two special values NaN and +∞ produced by `0.0/0.0` and `x/0.0`. -/

/-- A nonnegative `f64` value: NaN, +∞, or a finite rational. -/
inductive F64 where
  | nan : F64
  | inf : F64
  | fin (q : ℚ) : F64
  deriving DecidableEq

/-- Division `(n as f64) / (d as f64)` of two nonnegative integers: `0/0` is
NaN, `n/0` for positive `n` is +∞, otherwise the exact quotient (exact in
`f64` whenever the true quotient is, which holds at every use below). -/
def fdiv (n d : Nat) : F64 :=
  if d = 0 then (if n = 0 then .nan else .inf) else .fin ((n : ℚ) / (d : ℚ))

/-- Rust `f64::min`: ignores a NaN operand, returning the other one. -/
def fmin : F64 → F64 → F64
  | .nan, b => b
  | a, .nan => a
  | .inf, b => b
  | a, .inf => a
  | .fin a, .fin b => .fin (min a b)

/-- Multiplication `(n as f64) * r`: `0 * ∞` is NaN. -/
def fmul (n : Nat) (r : F64) : F64 :=
  match r with
  | .nan => .nan
  | .inf => if n = 0 then .nan else .inf
  | .fin q => .fin ((n : ℚ) * q)

/-- Rust `x.round() as u64` on a nonnegative `f64`: round half away from
zero (= `round` on nonnegative rationals), then saturating cast
(NaN ↦ 0, +∞ ↦ `u64::MAX`, negatives ↦ 0, too large ↦ `u64::MAX`). -/
def froundU64 : F64 → Nat
  | .nan => 0
  | .inf => U64MAX
  | .fin q => min (round q).toNat U64MAX

/-- Rust `x.round() as u32` on a nonnegative `f64`, saturating at
`u32::MAX`. -/
def froundU32 : F64 → Nat
  | .nan => 0
  | .inf => U32MAX
  | .fin q => min (round q).toNat U32MAX

/-- Embeds `image::math::utils::resize_dimensions(width, height, nwidth,
nheight, fill := false)`, the helper used by `DynamicImage::resize`:
the aspect-ratio-preserving target dimensions.  The `f64` arithmetic is
modelled exactly (see the header comment). -/
def resize_dimensions (width height nwidth nheight : Nat) : Nat × Nat :=
  let wratio := fdiv nwidth width
  let hratio := fdiv nheight height
  let ratio := fmin wratio hratio
  let nw := max (froundU64 (fmul width ratio)) 1
  let nh := max (froundU64 (fmul height ratio)) 1
  if U32MAX < nw then
    let ratio2 := fdiv U32MAX width
    (U32MAX, max (froundU32 (fmul height ratio2)) 1)
  else if U32MAX < nh then
    let ratio2 := fdiv U32MAX height
    (max (froundU32 (fmul width ratio2)) 1, U32MAX)
  else
    (nw, nh)

/-- Nearest-neighbor resampling of `img` to dimensions `nw × nh`
(`FilterType::Nearest`): each output pixel replicates the source pixel its
center maps back to; for exact integer upscales this is pixel replication
`(x, y) ↦ (x / k, y / k)`. -/
def resizeNearest (img : Image) (nw nh : Nat) : Image :=
  ⟨nw, nh, fun x y => img.pix (x * img.width / nw) (y * img.height / nh)⟩

/-- Embeds `DynamicImage::resize(nwidth, nheight, FilterType::Nearest)`:
returns the image unchanged when the target equals the current dimensions,
otherwise resamples to the aspect-preserving dimensions. -/
def Image.resize (img : Image) (nwidth nheight : Nat) : Image :=
  if nwidth = img.width ∧ nheight = img.height then img
  else
    let d := resize_dimensions img.width img.height nwidth nheight
    resizeNearest img d.1 d.2

/-- Embeds `upscale_image` from `src/lib/src/lib.rs`:
`img.resize(w * scale, h * scale, FilterType::Nearest)` where the products
are computed in wrapping `u32` arithmetic. -/
def upscale_image (img : Image) (scale : Nat) : Image :=
  img.resize (img.width * scale % U32) (img.height * scale % U32)

/-! ### Validation (`src/api/src/lib.rs`) -/

/-- `MAX_DATA_LEN` — 512 KiB raw payload cap. -/
def MAX_DATA_LEN : Nat := 512 * 1024

/-- `MAX_PIXELS` — total pixel cap. -/
def MAX_PIXELS : Nat := 65536

/-- `MAX_LONG_SIDE_LEN` — longer-dimension cap. -/
def MAX_LONG_SIDE_LEN : Nat := 1024

/-- The pixel-count rejection message of `validate_img_dimension`
(`format!("Image has too many pixels ({} > {})", w * h, MAX_PIXELS)`). -/
def pixelsMsg (px : Nat) : String :=
  "Image has too many pixels (" ++ toString px ++ " > 65536)"

/-- The long-side rejection message of `validate_img_dimension`. -/
def longSideMsg (long : Nat) : String :=
  "Long side of image is too long (" ++ toString long ++ " > 1024)"

/-- The aspect-ratio rejection message of `validate_img_dimension`
(`MAX_ASPECT_RATIO : f64 = 16.0` displays as `16`; the typo "retio" is the
source's). -/
def aspectMsg (long short : Nat) : String :=
  "Aspect retio of image is out of range (" ++ toString long ++ " : " ++
    toString short ++ " > 16 : 1)"

/-- The `f64` comparison `f64::from(long) / f64::from(short) > 16.0` on two
`u32` values.  For `short > 0` the rounding error of the division is far
below the gap `1/short` between attainable quotients and 16, so the check
is exactly `16 * short < long`; for `short = 0` the quotient is +∞ (long
positive, rejected) or NaN (rejected-not, i.e. accepted). -/
def aspectExceeds (long short : Nat) : Bool :=
  if short = 0 then decide (0 < long) else decide (16 * short < long)

/-- Embeds `validate_img_dimension`: the three geometry checks in source
order (pixel count on the wrapping `u32` product, long side, aspect ratio),
first violation winning. -/
def validate_img_dimension (img : Image) : Except ApiError Unit :=
  let w := img.width
  let h := img.height
  let px := w * h % U32
  if MAX_PIXELS < px then
    .error (ApiError.new 400 (pixelsMsg px))
  else
    let long := if h < w then w else h
    let short := if h < w then h else w
    if MAX_LONG_SIDE_LEN < long then
      .error (ApiError.new 400 (longSideMsg long))
    else if aspectExceeds long short then
      .error (ApiError.new 400 (aspectMsg long short))
    else
      .ok ()

/-! ### SHA-256 (`sha256_hex` in `src/api/src/lib.rs`, via the `sha2` and
`hex` crates): FIPS 180-4 SHA-256 over the raw byte payload, hex-encoded in
lowercase. Bytes are `Nat`s below 256. -/

/-- Right rotation of a 32-bit word. -/
def rotr32 (x k : Nat) : Nat :=
  (x >>> k ||| x <<< (32 - k)) % U32

/-- SHA-256 `Ch` function (`not x` is `x ^^^ 0xffffffff` on 32-bit words). -/
def shaCh (x y z : Nat) : Nat :=
  (x &&& y) ^^^ ((x ^^^ 4294967295) &&& z)

/-- SHA-256 `Maj` function. -/
def shaMaj (x y z : Nat) : Nat :=
  (x &&& y) ^^^ (x &&& z) ^^^ (y &&& z)

/-- SHA-256 big Σ₀. -/
def shaBigS0 (x : Nat) : Nat := rotr32 x 2 ^^^ rotr32 x 13 ^^^ rotr32 x 22

/-- SHA-256 big Σ₁. -/
def shaBigS1 (x : Nat) : Nat := rotr32 x 6 ^^^ rotr32 x 11 ^^^ rotr32 x 25

/-- SHA-256 small σ₀. -/
def shaSmallS0 (x : Nat) : Nat := rotr32 x 7 ^^^ rotr32 x 18 ^^^ (x >>> 3)

/-- SHA-256 small σ₁. -/
def shaSmallS1 (x : Nat) : Nat := rotr32 x 17 ^^^ rotr32 x 19 ^^^ (x >>> 10)

/-- The 64 SHA-256 round constants (FIPS 180-4, written in decimal). -/
def shaK : List Nat :=
  [1116352408, 1899447441, 3049323471, 3921009573, 961987163,
   1508970993, 2453635748, 2870763221, 3624381080, 310598401,
   607225278, 1426881987, 1925078388, 2162078206, 2614888103,
   3248222580, 3835390401, 4022224774, 264347078, 604807628,
   770255983, 1249150122, 1555081692, 1996064986, 2554220882,
   2821834349, 2952996808, 3210313671, 3336571891, 3584528711,
   113926993, 338241895, 666307205, 773529912, 1294757372,
   1396182291, 1695183700, 1986661051, 2177026350, 2456956037,
   2730485921, 2820302411, 3259730800, 3345764771, 3516065817,
   3600352804, 4094571909, 275423344, 430227734, 506948616,
   659060556, 883997877, 958139571, 1322822218, 1537002063,
   1747873779, 1955562222, 2024104815, 2227730452, 2361852424,
   2428436474, 2756734187, 3204031479, 3329325298]

/-- SHA-256 initial hash value (FIPS 180-4, written in decimal). -/
def shaH0 : List Nat :=
  [1779033703, 3144134277, 1013904242, 2773480762,
   1359893119, 2600822924, 528734635, 1541459225]

/-- The 8-byte big-endian encoding of a 64-bit value. -/
def toBE64 (n : Nat) : List Nat :=
  (List.range 8).map (fun i => n >>> (8 * (7 - i)) % 256)

/-- SHA-256 padding: append `0x80`, zero bytes to 56 mod 64, and the bit
length as 8 bytes big-endian. -/
def shaPad (msg : List Nat) : List Nat :=
  let L := msg.length
  let zeros := (64 + 56 - (L + 1) % 64) % 64
  msg ++ [0x80] ++ List.replicate zeros 0 ++ toBE64 (8 * L % (U64MAX + 1))

/-- Splits a byte list into 64-byte chunks. -/
def chunks64 : List Nat → List (List Nat)
  | [] => []
  | a :: rest => ((a :: rest).take 64) :: chunks64 ((a :: rest).drop 64)
termination_by l => l.length
decreasing_by simp [List.length_drop]; omega

/-- The message-schedule word `W i` of a 64-byte chunk. -/
def shaW (chunk : List Nat) (i : Nat) : Nat :=
  if i < 16 then
    chunk.getD (4 * i) 0 <<< 24 ||| chunk.getD (4 * i + 1) 0 <<< 16 |||
      chunk.getD (4 * i + 2) 0 <<< 8 ||| chunk.getD (4 * i + 3) 0
  else
    (shaSmallS1 (shaW chunk (i - 2)) + shaW chunk (i - 7) +
      shaSmallS0 (shaW chunk (i - 15)) + shaW chunk (i - 16)) % U32
termination_by i
decreasing_by all_goals omega

/-- Working state of the SHA-256 compression function. -/
structure ShaState where
  a : Nat
  b : Nat
  c : Nat
  d : Nat
  e : Nat
  f : Nat
  g : Nat
  h : Nat
  deriving DecidableEq, Repr

/-- One round of the SHA-256 compression function. -/
def shaRound (s : ShaState) (wk : Nat × Nat) : ShaState :=
  let t1 := (s.h + shaBigS1 s.e + shaCh s.e s.f s.g + wk.2 + wk.1) % U32
  let t2 := (shaBigS0 s.a + shaMaj s.a s.b s.c) % U32
  ⟨(t1 + t2) % U32, s.a, s.b, s.c, (s.d + t1) % U32, s.e, s.f, s.g⟩

/-- Processes one 64-byte chunk: 64 compression rounds, then add back the
incoming state, all mod 2^32. -/
def shaChunk (hs : List Nat) (chunk : List Nat) : List Nat :=
  let ws := (List.range 64).map (shaW chunk)
  let s0 : ShaState :=
    ⟨hs.getD 0 0, hs.getD 1 0, hs.getD 2 0, hs.getD 3 0,
     hs.getD 4 0, hs.getD 5 0, hs.getD 6 0, hs.getD 7 0⟩
  let s := (List.zip ws shaK).foldl shaRound s0
  [(s0.a + s.a) % U32, (s0.b + s.b) % U32, (s0.c + s.c) % U32,
   (s0.d + s.d) % U32, (s0.e + s.e) % U32, (s0.f + s.f) % U32,
   (s0.g + s.g) % U32, (s0.h + s.h) % U32]

/-- The 4-byte big-endian encoding of a 32-bit word. -/
def toBE32 (n : Nat) : List Nat :=
  [n >>> 24 % 256, n >>> 16 % 256, n >>> 8 % 256, n % 256]

/-- SHA-256 digest (32 bytes) of a byte list. -/
def sha256 (msg : List Nat) : List Nat :=
  ((chunks64 (shaPad msg)).foldl shaChunk shaH0).flatMap toBE32

/-- Lowercase hex digit of a value below 16. -/
def hexChar (n : Nat) : Char :=
  if n < 10 then Char.ofNat (48 + n) else Char.ofNat (87 + n)

/-- Embeds `sha256_hex` from `src/api/src/lib.rs`: lowercase-hex-encoded
SHA-256 of the raw byte payload. -/
def sha256_hex (data : List Nat) : String :=
  ((sha256 data).flatMap (fun b => [hexChar (b / 16), hexChar (b % 16)])).asString

/-! ### The upscale pyramid and the fan-out upload (`src/api/src/lib.rs`) -/

/-- The sequence of scale factors generated at ingest, embedded from
`ImageUploader::upload_all`:
`[1, 2, 4, 8, 16].into_iter().take_while(|&x| long * x <= 1024)`, with the
`u32` product taken wrapping. -/
def generate_scales (long : Nat) : List Nat :=
  [1, 2, 4, 8, 16].takeWhile (fun x => long * x % U32 ≤ 1024)

/-- Embeds the `UploadedImage` response record. -/
structure UploadedImage where
  name : String
  scale : Nat
  width : Nat
  height : Nat
  deriving DecidableEq, Repr

/-- The contents of the R2 bucket, as an opaque key → bytes store. -/
def BucketState := String → Option (List Nat)

/-- The external collaborators of the ingest path: the PNG/WebP/BMP/GIF
decoder and PNG encoder of the image crate (fallible), and which bucket
`put` operations fail (store-layer nondeterminism as a parameter). -/
structure UploadEnv where
  encode : Image → Option (List Nat)
  putFails : String → Bool

/-- The derivative image uploaded for a scale factor: the original image for
scale 1 (`upload_original_image`), the upscaled one otherwise
(`upload_upscaled_image`). -/
def scaledFor (img : Image) (scale : Nat) : Image :=
  if scale = 1 then img else upscale_image img scale

/-- The object key for a scale factor, embedded from
`upload_original_image` / `upload_upscaled_image` / `upload_image_to_bucket`
with `dest_fmt = ImageFormat::Png`: stem `{hash}` for scale 1 and
`{hash}_{scale}x` otherwise, followed by `.png`. -/
def keyOf (hash : String) (scale : Nat) : String :=
  (if scale = 1 then hash else hash ++ "_" ++ toString scale ++ "x") ++ ".png"

/-- One per-scale upload task (`upload_original_image` for scale 1,
`upload_upscaled_image` otherwise): encode the (possibly upscaled) image,
then `put` it into the bucket; either step may fail, and a failed task
leaves the bucket untouched. -/
def uploadTask (env : UploadEnv) (img : Image) (hash : String) (scale : Nat)
    (b : BucketState) : Except Unit UploadedImage × BucketState :=
  let scaled := scaledFor img scale
  let key := keyOf hash scale
  match env.encode scaled with
  | none => (.error (), b)
  | some data =>
    if env.putFails key then (.error (), b)
    else
      (.ok ⟨key, scale, scaled.width, scaled.height⟩,
       fun k => if k = key then some data else b k)

/-- The per-scale result of an upload task; the result component of
`uploadTask` never reads the bucket state. -/
def taskRes (env : UploadEnv) (img : Image) (hash : String) (scale : Nat) :
    Except Unit UploadedImage :=
  (uploadTask env img hash scale (fun _ => none)).1

/-- Runs the per-scale upload tasks of `join_all`, collecting their results
in task order (which `futures::future::join_all` guarantees, independent of
completion order) and accumulating the bucket writes.  The tasks write to
pairwise-distinct keys, so a sequential threading of the store is a faithful
model of the concurrent execution. -/
def runTasks (env : UploadEnv) (img : Image) (hash : String) :
    List Nat → BucketState → List (Except Unit UploadedImage) × BucketState
  | [], b => ([], b)
  | s :: ss, b =>
    let rb := uploadTask env img hash s b
    let rest := runTasks env img hash ss rb.2
    (rb.1 :: rest.1, rest.2)

/-- Rust's `collect::<Result<Vec<_>, _>>`: all `Ok`s in order, or the first
error. -/
def collectE : List (Except Unit UploadedImage) →
    Except Unit (List UploadedImage)
  | [] => .ok []
  | .error e :: _ => .error e
  | .ok a :: rest => (collectE rest).map (a :: ·)

/-- Embeds `ImageUploader::upload_all`: compute the scale pyramid from the
longer dimension, run the per-scale upload tasks concurrently, and collect
one `UploadedImage` per scale (failing as a whole if any task failed).
Returns the result together with the final bucket contents. -/
def upload_all (env : UploadEnv) (img : Image) (hash : String)
    (b : BucketState) : Except Unit (List UploadedImage) × BucketState :=
  let long := max img.width img.height
  let rb := runTasks env img hash (generate_scales long) b
  (collectE rb.1, rb.2)

/-- The successful (key, bytes) writes performed by the per-scale tasks, in
task order — a bookkeeping view of `runTasks` used to reason about the
final store state. -/
def writesOf (env : UploadEnv) (img : Image) (hash : String) :
    List Nat → List (String × List Nat)
  | [] => []
  | s :: ss =>
    match env.encode (scaledFor img s) with
    | none => writesOf env img hash ss
    | some data =>
      if env.putFails (keyOf hash s) then writesOf env img hash ss
      else (keyOf hash s, data) :: writesOf env img hash ss

/-- Applies a list of writes to a store, in order (later writes win). -/
def applyWrites : List (String × List Nat) → BucketState → BucketState
  | [], b => b
  | w :: ws, b => applyWrites ws (fun k => if k = w.1 then some w.2 else b k)

/-- The last write to a key in a write list, if any. -/
def lastWrite : List (String × List Nat) → String → Option (List Nat)
  | [], _ => none
  | w :: ws, k =>
    match lastWrite ws k with
    | some d => some d
    | none => if k = w.1 then some w.2 else none

/-! ### Ingest transport and orchestration (`src/api/src/lib.rs`) -/

/-- The image formats relevant to `validate_img_format`. `jpeg` stands for
any format the image crate's `from_mime_type` recognizes but the validator
rejects as unsupported. -/
inductive ImgFmt where
  | png | webp | bmp | gif | jpeg
  deriving DecidableEq, Repr

/-- The primary extension string (`ImageFormat::extensions_str()[0]`). -/
def ImgFmt.ext : ImgFmt → String
  | .png => "png"
  | .webp => "webp"
  | .bmp => "bmp"
  | .gif => "gif"
  | .jpeg => "jpg"

/-- Modelled subset of `image::ImageFormat::from_mime_type`: the four
accepted MIME types plus `image/jpeg` as a representative recognized-but-
unsupported one (the crate also maps avif/tiff/ico/…, all of which the
validator rejects the same way). -/
def imageFormatFromMime (ct : String) : Option ImgFmt :=
  if ct = "image/png" then some .png
  else if ct = "image/webp" then some .webp
  else if ct = "image/bmp" then some .bmp
  else if ct = "image/gif" then some .gif
  else if ct = "image/jpeg" then some .jpeg
  else none

/-- Rust `str::starts_with`: the needle's characters lead the haystack's. -/
def strStartsWith (s pre : String) : Bool :=
  s.toList.take pre.toList.length == pre.toList

/-- Embeds `validate_img_format`: the content type must start with
`image/`, map to a known format, and that format must be one of
PNG/WebP/BMP/GIF. -/
def validate_img_format (ct : String) : Except ApiError ImgFmt :=
  if ¬ strStartsWith ct "image/" then
    .error (ApiError.new 400 "Content-Type is not for an image")
  else
    match imageFormatFromMime ct with
    | none => .error (ApiError.new 400 "Content-Type is not for an image")
    | some fmt =>
      match fmt with
      | .png | .webp | .bmp | .gif => .ok fmt
      | _ => .error (ApiError.new 400
          ("Unsupported image format: " ++ fmt.ext))

/-- The inbound `POST /` request body as `get_image_data_from_request` sees
it.  `raw` is a non-multipart body with its `Content-Type` header; `form`
is a multipart submission whose `file` field is a file with the given
declared type and bytes; the remaining variants are the multipart error
shapes. -/
inductive ReqBody where
  | noContentType
  | raw (ctype : String) (bytes : List Nat)
  | formMissingFile
  | formNotFile
  | form (fileType : String) (bytes : List Nat)

/-- Embeds `get_image_data_from_request` together with its two helpers
`get_image_data_from_req_body` and `get_image_data_from_form_data`:
extract the raw payload and its declared format from either transport.
The raw path validates the format first and then checks the 512 KiB size
cap; the multipart path checks the size cap first. -/
def get_image_data_from_request : ReqBody → Except ApiError (List Nat × ImgFmt)
  | .noContentType => .error (ApiError.new 400 "Missing Content-Type header")
  | .raw ctype bytes =>
    match validate_img_format ctype with
    | .error e => .error e
    | .ok fmt =>
      if MAX_DATA_LEN < bytes.length then
        .error (ApiError.new 413 "Too large image data")
      else .ok (bytes, fmt)
  | .formMissingFile => .error (ApiError.new 400 "Missing 'file' field in form data")
  | .formNotFile => .error (ApiError.new 400 "'file' field is not a file")
  | .form fileType bytes =>
    if MAX_DATA_LEN < bytes.length then
      .error (ApiError.new 413 "Too large image data")
    else
      match validate_img_format fileType with
      | .error e => .error e
      | .ok fmt => .ok (bytes, fmt)

/-- The two failure kinds of `image::load_from_memory_with_format`:
`ImageError::Decoding(_)` versus anything else. -/
inductive DecodeErr where
  | decoding
  | other
  deriving DecidableEq, Repr

/-- The fallible decoder `image::load_from_memory_with_format`, as an
external collaborator. -/
def Decoder := ImgFmt → List Nat → Except DecodeErr Image

/-- Embeds `post_image`: extract the payload, decode it (a `Decoding` error
is a 400, any other load error a 500), validate the geometry, then hash the
raw bytes and fan out the per-scale uploads; an upload failure maps to a
bare 500.  Returns the response value together with the final bucket
contents (the bucket binding is assumed available). -/
def post_image (env : UploadEnv) (decode : Decoder) (b : BucketState)
    (r : ReqBody) : Except ApiError (List UploadedImage) × BucketState :=
  match get_image_data_from_request r with
  | .error e => (.error e, b)
  | .ok (data, fmt) =>
    match decode fmt data with
    | .error .decoding => (.error (ApiError.new 400 "Failed to decode image"), b)
    | .error .other => (.error (ApiError.no_msg 500), b)
    | .ok img =>
      match validate_img_dimension img with
      | .error e => (.error e, b)
      | .ok _ =>
        let rb := upload_all env img (sha256_hex data) b
        (rb.1.mapError (fun _ => ApiError.no_msg 500), rb.2)

/-! ### Request-path parsing (`src/dyn/src/lib.rs`) -/

/-- Embeds `ReqPathParts`. -/
structure ReqPathParts where
  hash : String
  scale : Nat
  ext : String
  deriving DecidableEq, Repr

/-- Is `c` one of `[0-9a-f]`? -/
def isHexLower (c : Char) : Bool :=
  c.isDigit || ('a' ≤ c && c ≤ 'f')

/-- Is `c` one of `[a-z]`? -/
def isLowerAlpha (c : Char) : Bool :=
  'a' ≤ c && c ≤ 'z'

/-- The decimal value of a digit string. -/
def decimalVal (ds : List Char) : Nat :=
  ds.foldl (fun acc c => acc * 10 + (c.toNat - 48)) 0

/-- Rust `str::parse::<u32>()` on a nonempty all-digit string: the decimal
value if it fits in `u32`, otherwise an overflow error. -/
def parse_u32 (ds : List Char) : Option Nat :=
  if decimalVal ds < U32 then some (decimalVal ds) else none

/-- Embeds `match_req_path`: the anchored regex
`^/(?P<hash>[0-9a-f]{64})(?P<sx>_(?P<scale>[0-9]+)x)?\.(?P<ext>[a-z]+)$`
as a deterministic parser (the regex is unambiguous: the hash is the fixed
64 characters after the slash, the optional group is selected by the next
character being `_` versus `.`, and `[0-9]+` before the literal `x` is
maximal-munch).  The scale digits go through `parse::<u32>()`, whose
failure — only possible by exceeding `u32::MAX` — makes the whole match
return `None`; an absent scale group defaults to 1. -/
def match_req_path (path : String) : Option ReqPathParts :=
  match path.toList with
  | '/' :: rest =>
    let hash := rest.take 64
    let rest2 := rest.drop 64
    if hash.length = 64 ∧ hash.all isHexLower then
      match rest2 with
      | '.' :: ext =>
        if ext ≠ [] ∧ ext.all isLowerAlpha then
          some ⟨hash.asString, 1, ext.asString⟩
        else none
      | '_' :: more =>
        match more.dropWhile Char.isDigit with
        | 'x' :: '.' :: ext =>
          let ds := more.takeWhile Char.isDigit
          if ds ≠ [] ∧ ext ≠ [] ∧ ext.all isLowerAlpha then
            match parse_u32 ds with
            | some n => some ⟨hash.asString, n, ext.asString⟩
            | none => none
          else none
        | _ => none
      | _ => none
    else none
  | _ => none

/-- The key-pattern of the spec, written from its words for claim C4: a
leading slash, 64 lowercase hex characters, an optional `_<digits>x` suffix
whose digits parse as an unsigned 32-bit integer (scale defaults to 1 when
absent), a literal dot, then one or more lowercase letters. -/
def PathPattern (p : String) (parts : ReqPathParts) : Prop :=
  ∃ hash sx ext : List Char,
    p.toList = '/' :: (hash ++ (sx ++ ('.' :: ext))) ∧
    hash.length = 64 ∧ (∀ c ∈ hash, isHexLower c = true) ∧
    ext ≠ [] ∧ (∀ c ∈ ext, isLowerAlpha c = true) ∧
    parts.hash = hash.asString ∧ parts.ext = ext.asString ∧
    ((sx = [] ∧ parts.scale = 1) ∨
      (∃ ds : List Char, sx = '_' :: (ds ++ ['x']) ∧ ds ≠ [] ∧
        (∀ c ∈ ds, c.isDigit = true) ∧ decimalVal ds < U32 ∧
        parts.scale = decimalVal ds))

/-! ### The on-demand resolver (`src/dyn/src/lib.rs`) -/

/-- The possible outcomes of reading an object from the bucket on the
on-demand path: `bucket.get(key).execute()` may fail (`err`) or find no
object (`notFound`); a found object may lack a body (`noBody`), reading its
bytes may fail (`bodyErr`), or yield the bytes (`found`). -/
inductive GetResult where
  | err
  | notFound
  | noBody
  | bodyErr
  | found (bytes : List Nat)

/-- The bucket of the on-demand path, as the outcome of `get` per key. -/
def DynStore := String → GetResult

/-- Embeds `generate_upscaled_image`: parse the request path (no match →
bare 404, non-`png` extension → bare 404), fetch the scale-1 object
`{hash}.png` (store failure → 500, absent → 404, body trouble → 500),
decode it as PNG (failure → 500), upscale from that canonical base unless
the requested scale is 1, and encode the result as PNG (failure → 500). -/
def generate_upscaled_image (store : DynStore) (decode : Decoder)
    (encode : Image → Option (List Nat)) (req_path : String) :
    Except ApiError (List Nat) :=
  match match_req_path req_path with
  | none => .error (ApiError.no_msg 404)
  | some parts =>
    if parts.ext ≠ "png" then .error (ApiError.no_msg 404)
    else
      match store (parts.hash ++ ".png") with
      | .err => .error (ApiError.no_msg 500)
      | .notFound => .error (ApiError.no_msg 404)
      | .noBody => .error (ApiError.no_msg 500)
      | .bodyErr => .error (ApiError.no_msg 500)
      | .found bytes =>
        match decode .png bytes with
        | .error _ => .error (ApiError.no_msg 500)
        | .ok img =>
          let upscaled := if parts.scale = 1 then img
            else upscale_image img parts.scale
          match encode upscaled with
          | none => .error (ApiError.no_msg 500)
          | some out => .ok out

/-! ## Supporting lemmas -/

/-- Explicit closed form of the pyramid scale list, resolving the wrapping
`u32` products: the `take_while` truncates the fixed sequence at the first
factor whose product with `long` exceeds 1024. -/
theorem generate_scales_shape (long : Nat) (h : long < U32) :
    generate_scales long =
      if 1024 < long then []
      else if 1024 < 2 * long then [1]
      else if 1024 < 4 * long then [1, 2]
      else if 1024 < 8 * long then [1, 2, 4]
      else if 1024 < 16 * long then [1, 2, 4, 8]
      else [1, 2, 4, 8, 16] := by
  by_cases h1 : long ≤ 1024
  · have e1 : long * 1 % U32 = long * 1 := Nat.mod_eq_of_lt (by unfold U32 at *; omega)
    have e2 : long * 2 % U32 = long * 2 := Nat.mod_eq_of_lt (by unfold U32 at *; omega)
    have e4 : long * 4 % U32 = long * 4 := Nat.mod_eq_of_lt (by unfold U32 at *; omega)
    have e8 : long * 8 % U32 = long * 8 := Nat.mod_eq_of_lt (by unfold U32 at *; omega)
    have e16 : long * 16 % U32 = long * 16 := Nat.mod_eq_of_lt (by unfold U32 at *; omega)
    simp only [generate_scales, List.takeWhile_cons, List.takeWhile_nil,
      e1, e2, e4, e8, e16, decide_eq_true_eq]
    split_ifs <;> first | rfl | omega
  · have e1 : long * 1 % U32 = long * 1 := Nat.mod_eq_of_lt (by unfold U32 at *; omega)
    simp only [generate_scales, List.takeWhile_cons, e1, decide_eq_true_eq]
    split_ifs <;> first | rfl | omega

/-- Every list appearing as a left factor of `[1,2,4,8,16]` under append is
one of its six leading segments. -/
theorem prefix_of_scale_seq (l t : List Nat) (h : l ++ t = [1, 2, 4, 8, 16]) :
    l = [] ∨ l = [1] ∨ l = [1, 2] ∨ l = [1, 2, 4] ∨ l = [1, 2, 4, 8] ∨
      l = [1, 2, 4, 8, 16] := by
  rcases l with _ | ⟨a, l⟩
  · exact Or.inl rfl
  injection h with h1 h; subst h1
  rcases l with _ | ⟨a, l⟩
  · exact Or.inr (Or.inl rfl)
  injection h with h1 h; subst h1
  rcases l with _ | ⟨a, l⟩
  · exact Or.inr (Or.inr (Or.inl rfl))
  injection h with h1 h; subst h1
  rcases l with _ | ⟨a, l⟩
  · exact Or.inr (Or.inr (Or.inr (Or.inl rfl)))
  injection h with h1 h; subst h1
  rcases l with _ | ⟨a, l⟩
  · exact Or.inr (Or.inr (Or.inr (Or.inr (Or.inl rfl))))
  injection h with h1 h; subst h1
  rcases l with _ | ⟨a, l⟩
  · exact Or.inr (Or.inr (Or.inr (Or.inr (Or.inr rfl))))
  simp at h

/-! ## Claims -/

/-- C1. The scale pyramid generated at ingest is the longest leading
segment of `[1, 2, 4, 8, 16]` all of whose elements `k` satisfy
`long_side * k ≤ 1024` (truncation at the first violating factor); for a
validator-accepted long side (≤ 1024) the factor 1 is always included; and
`long_side` = 100, 1024, 65 yield `[1,2,4,8]`, `[1]`, `[1,2,4,8]`. -/
theorem C1_generate_scales (long : Nat) (h : long < U32) :
    ((∃ t, generate_scales long ++ t = [1, 2, 4, 8, 16]) ∧
      (∀ k ∈ generate_scales long, long * k ≤ 1024) ∧
      (∀ l t, l ++ t = [1, 2, 4, 8, 16] → (∀ k ∈ l, long * k ≤ 1024) →
        l.length ≤ (generate_scales long).length) ∧
      (long ≤ 1024 → 1 ∈ generate_scales long)) ∧
    (generate_scales 100 = [1, 2, 4, 8] ∧ generate_scales 1024 = [1] ∧
      generate_scales 65 = [1, 2, 4, 8]) := by
  refine ⟨⟨?_, ?_, ?_, ?_⟩, by decide, by decide, by decide⟩
  · rw [generate_scales_shape long h]
    split_ifs
    · exact ⟨[1, 2, 4, 8, 16], rfl⟩
    · exact ⟨[2, 4, 8, 16], rfl⟩
    · exact ⟨[4, 8, 16], rfl⟩
    · exact ⟨[8, 16], rfl⟩
    · exact ⟨[16], rfl⟩
    · exact ⟨[], rfl⟩
  · rw [generate_scales_shape long h]
    split_ifs <;> intro k hk <;> fin_cases hk <;> omega
  · intro l t hlt hall
    rcases prefix_of_scale_seq l t hlt with rfl | rfl | rfl | rfl | rfl | rfl <;>
      rw [generate_scales_shape long h] <;>
      [skip;
       have m1 := hall 1 (by simp);
       have m2 := hall 2 (by simp);
       have m4 := hall 4 (by simp);
       have m8 := hall 8 (by simp);
       have m16 := hall 16 (by simp)] <;>
      split_ifs <;> simp_all <;> omega
  · intro hle
    rw [generate_scales_shape long h]
    split_ifs <;> simp <;> omega

/-- C1 witness: the theorem applied at `long_side = 1024`. -/
theorem C1_generate_scales_witness :
    (1024 : Nat) < U32 ∧ generate_scales 1024 = [1] :=
  ⟨by decide, (C1_generate_scales 1024 (by decide)).2.2.1⟩

/-- C2. Geometry validation applies exactly three checks in source order —
pixel count (the `u32` product), long side, aspect ratio — with the first
violation winning; every rejection is a 400 whose message embeds the
offending and limit values; the aspect test agrees with the rational
comparison `long/short > 16` whenever the short side is positive; and
256×256 is accepted while 257×256 and 300×4 are rejected for pixel count
resp. aspect ratio. -/
theorem C2_validate_img_dimension :
    (∀ img : Image, img.width < U32 → img.height < U32 →
      ((validate_img_dimension img = .ok () ↔
          img.width * img.height % U32 ≤ 65536 ∧
          max img.width img.height ≤ 1024 ∧
          aspectExceeds (max img.width img.height) (min img.width img.height) = false) ∧
        (65536 < img.width * img.height % U32 →
          validate_img_dimension img =
            .error (ApiError.new 400 (pixelsMsg (img.width * img.height % U32)))) ∧
        (img.width * img.height % U32 ≤ 65536 → 1024 < max img.width img.height →
          validate_img_dimension img =
            .error (ApiError.new 400 (longSideMsg (max img.width img.height)))) ∧
        (img.width * img.height % U32 ≤ 65536 → max img.width img.height ≤ 1024 →
          aspectExceeds (max img.width img.height) (min img.width img.height) = true →
          validate_img_dimension img =
            .error (ApiError.new 400
              (aspectMsg (max img.width img.height) (min img.width img.height)))) ∧
        (0 < min img.width img.height →
          (aspectExceeds (max img.width img.height) (min img.width img.height) = true ↔
            (16 : ℚ) < (max img.width img.height : ℚ) / (min img.width img.height : ℚ))))) ∧
    validate_img_dimension ⟨256, 256, fun _ _ => 0⟩ = .ok () ∧
    validate_img_dimension ⟨257, 256, fun _ _ => 0⟩ =
      .error (ApiError.new 400 "Image has too many pixels (65792 > 65536)") ∧
    validate_img_dimension ⟨300, 4, fun _ _ => 0⟩ =
      .error (ApiError.new 400
        "Aspect retio of image is out of range (300 : 4 > 16 : 1)") := by
  refine ⟨?_, by rfl, by rfl, by rfl⟩
  intro img hw hh
  obtain ⟨w, h, pix⟩ := img
  simp only [Image.width, Image.height] at *
  have hlong : (if h < w then w else h) = max w h := by
    rw [Nat.max_def]; split_ifs <;> omega
  have hshort : (if h < w then h else w) = min w h := by
    rw [Nat.min_def]; split_ifs <;> omega
  have hA : validate_img_dimension ⟨w, h, pix⟩ =
      (if 65536 < w * h % U32 then
        Except.error (ApiError.new 400 (pixelsMsg (w * h % U32)))
      else if 1024 < max w h then
        Except.error (ApiError.new 400 (longSideMsg (max w h)))
      else if aspectExceeds (max w h) (min w h) = true then
        Except.error (ApiError.new 400 (aspectMsg (max w h) (min w h)))
      else Except.ok ()) := by
    simp only [validate_img_dimension, MAX_PIXELS, MAX_LONG_SIDE_LEN, hlong, hshort]
  refine ⟨?_, ?_, ?_, ?_, ?_⟩
  · rw [hA]
    constructor
    · intro hok
      split_ifs at hok with h1 h2 h3
      exact ⟨by omega, by omega, by simpa using h3⟩
    · rintro ⟨p1, p2, p3⟩
      rw [if_neg (by omega), if_neg (by omega), if_neg (by simp [p3])]
  · intro h1
    rw [hA, if_pos h1]
  · intro h1 h2
    rw [hA, if_neg (by omega), if_pos h2]
  · intro h1 h2 h3
    rw [hA, if_neg (by omega), if_neg (by omega), if_pos h3]
  · intro hpos
    have hne : ¬ (min w h = 0) := by omega
    simp only [aspectExceeds, hne, if_false, if_neg hne, decide_eq_true_eq]
    rw [lt_div_iff₀ (by exact_mod_cast hpos)]
    exact_mod_cast Iff.rfl

/-- C2 witness: the theorem applied to a 300×4 image, whose aspect ratio
75:1 is rejected although pixel count and long side pass. -/
theorem C2_validate_img_dimension_witness :
    validate_img_dimension ⟨300, 4, fun _ _ => 0⟩ =
      .error (ApiError.new 400 (aspectMsg (max 300 4) (min 300 4))) :=
  (C2_validate_img_dimension.1 ⟨300, 4, fun _ _ => 0⟩ (by decide)
    (by decide)).2.2.2.1 (by decide) (by decide) (by decide)

/-- C3. The on-demand resolver consults the store only at the scale-1 key
`{hash}.png`, whatever the requested scale: its result is invariant under
any change of the store away from that key, and when the store has no
object at that key the result is the bare 404, for every requested scale. -/
theorem C3_fetch_base (decode : Decoder) (encode : Image → Option (List Nat))
    (path : String) (parts : ReqPathParts)
    (hp : match_req_path path = some parts) (hext : parts.ext = "png") :
    (∀ s1 s2 : DynStore, s1 (parts.hash ++ ".png") = s2 (parts.hash ++ ".png") →
      generate_upscaled_image s1 decode encode path =
        generate_upscaled_image s2 decode encode path) ∧
    (∀ s : DynStore, s (parts.hash ++ ".png") = .notFound →
      generate_upscaled_image s decode encode path =
        .error (ApiError.no_msg 404)) := by
  obtain ⟨phash, pscale, pext⟩ := parts
  simp only at hext
  subst hext
  constructor
  · intro s1 s2 hkey
    simp only [generate_upscaled_image, hp]
    rw [if_neg (by simp), if_neg (by simp)]
    simp only at hkey
    rw [hkey]
  · intro s hnf
    simp only [generate_upscaled_image, hp]
    rw [if_neg (by simp)]
    simp only at hnf
    rw [hnf]

/-- C3 witness: the theorem applied to a concrete well-formed path and the
empty store. -/
theorem C3_fetch_base_witness :
    generate_upscaled_image (fun _ => .notFound) (fun _ _ => .error .other)
      (fun _ => none)
      "/aaaaaaaaaaaaaaaaaaaaaaaaaaaaaaaaaaaaaaaaaaaaaaaaaaaaaaaaaaaaaaaa_7x.png" =
      .error (ApiError.no_msg 404) :=
  (C3_fetch_base (fun _ _ => .error .other) (fun _ => none)
    "/aaaaaaaaaaaaaaaaaaaaaaaaaaaaaaaaaaaaaaaaaaaaaaaaaaaaaaaaaaaaaaaa_7x.png"
    ⟨"aaaaaaaaaaaaaaaaaaaaaaaaaaaaaaaaaaaaaaaaaaaaaaaaaaaaaaaaaaaaaaaa", 7, "png"⟩
    (by decide) rfl).2 (fun _ => .notFound) rfl

/-- C9. An unparseable request path (or one parsing to an unsupported
extension) and a well-formed path whose hash has no stored base image
produce the very same error value: status 404 with no message — the two
failure causes are indistinguishable to the caller. -/
theorem C9_notfound_indistinguishable (store : DynStore) (decode : Decoder)
    (encode : Image → Option (List Nat)) (p1 p2 : String) (parts : ReqPathParts)
    (h1 : match_req_path p1 = none ∨
      ∃ q, match_req_path p1 = some q ∧ q.ext ≠ "png")
    (h2 : match_req_path p2 = some parts) (hext : parts.ext = "png")
    (hnf : store (parts.hash ++ ".png") = .notFound) :
    generate_upscaled_image store decode encode p1 = .error (ApiError.mk 404 none) ∧
    generate_upscaled_image store decode encode p2 = .error (ApiError.mk 404 none) ∧
    generate_upscaled_image store decode encode p1 =
      generate_upscaled_image store decode encode p2 := by
  have e2 : generate_upscaled_image store decode encode p2 =
      .error (ApiError.mk 404 none) := by
    obtain ⟨phash, pscale, pext⟩ := parts
    simp only at hext
    subst hext
    simp only [generate_upscaled_image, h2]
    rw [if_neg (by simp)]
    simp only at hnf
    rw [hnf]
    rfl
  have e1 : generate_upscaled_image store decode encode p1 =
      .error (ApiError.mk 404 none) := by
    rcases h1 with hnone | ⟨q, hq, hqext⟩
    · simp only [generate_upscaled_image, hnone]
      rfl
    · simp only [generate_upscaled_image, hq]
      rw [if_pos hqext]
      rfl
  exact ⟨e1, e2, e1.trans e2.symm⟩

/-- C9 witness: the theorem applied to the unparseable path `/x` and a
well-formed path absent from the store. -/
theorem C9_notfound_indistinguishable_witness :
    generate_upscaled_image (fun _ => .notFound) (fun _ _ => .error .other)
      (fun _ => none) "/x" = .error (ApiError.mk 404 none) :=
  (C9_notfound_indistinguishable (fun _ => .notFound) (fun _ _ => .error .other)
    (fun _ => none) "/x"
    "/aaaaaaaaaaaaaaaaaaaaaaaaaaaaaaaaaaaaaaaaaaaaaaaaaaaaaaaaaaaaaaaa.png"
    ⟨"aaaaaaaaaaaaaaaaaaaaaaaaaaaaaaaaaaaaaaaaaaaaaaaaaaaaaaaaaaaaaaaa", 1, "png"⟩
    (Or.inl (by decide)) (by decide) rfl rfl).1

/-- Maximal-munch of the digit run before the literal `x`: splitting
`ds ++ 'x' :: l` at the first non-digit recovers `ds` and `'x' :: l`. -/
theorem takeWhile_digits_append (ds l : List Char)
    (h : ∀ c ∈ ds, c.isDigit = true) :
    (ds ++ 'x' :: l).takeWhile Char.isDigit = ds ∧
    (ds ++ 'x' :: l).dropWhile Char.isDigit = 'x' :: l := by
  have hx : ('x' : Char).isDigit = false := by decide
  induction ds with
  | nil => simp [List.takeWhile_cons, List.dropWhile_cons, hx]
  | cons a ds ih =>
    have ha := h a (List.mem_cons_self a ds)
    have ih' := ih (fun c hc => h c (List.mem_cons_of_mem a hc))
    simp [List.takeWhile_cons, List.dropWhile_cons, ha, ih'.1, ih'.2]

/-- Soundness of the path parser: a successful parse exhibits the spec's
key pattern. -/
theorem match_req_path_sound (p : String) (parts : ReqPathParts)
    (h : match_req_path p = some parts) : PathPattern p parts := by
  unfold match_req_path at h
  split at h
  case _ rest heq =>
    dsimp only at h
    split at h
    case isTrue hcond =>
      obtain ⟨hlen, hall⟩ := hcond
      split at h
      case _ ext hdrop =>
        -- rest.drop 64 = '.' :: ext
        split at h
        case isTrue hcond2 =>
          obtain ⟨hne, hlow⟩ := hcond2
          injection h with h
          refine ⟨rest.take 64, [], ext, ?_, hlen, ?_, hne, ?_, ?_, ?_, Or.inl ⟨rfl, ?_⟩⟩
          · rw [heq, List.nil_append, ← hdrop, List.take_append_drop]
          · exact List.all_eq_true.mp hall
          · exact List.all_eq_true.mp hlow
          · rw [← h]
          · rw [← h]
          · rw [← h]
        case isFalse => simp at h
      case _ more hdrop =>
        -- rest.drop 64 = '_' :: more
        split at h
        case _ ext hdw =>
          -- more.dropWhile Char.isDigit = 'x' :: '.' :: ext
          split at h
          case isTrue hcond2 =>
            obtain ⟨hdsne, hextne, hlow⟩ := hcond2
            split at h
            case _ n hparse =>
              injection h with h
              have hdig : ∀ c ∈ more.takeWhile Char.isDigit, c.isDigit = true :=
                fun c hc => List.mem_takeWhile_imp hc
              have hmore : more = more.takeWhile Char.isDigit ++ 'x' :: '.' :: ext := by
                rw [← hdw, List.takeWhile_append_dropWhile]
              have hval : decimalVal (more.takeWhile Char.isDigit) < U32 ∧
                  n = decimalVal (more.takeWhile Char.isDigit) := by
                unfold parse_u32 at hparse
                split at hparse
                · exact ⟨by assumption, by injection hparse with h2; omega⟩
                · simp at hparse
              refine ⟨rest.take 64, '_' :: (more.takeWhile Char.isDigit ++ ['x']),
                ext, ?_, hlen, ?_, hextne, ?_, ?_, ?_,
                Or.inr ⟨more.takeWhile Char.isDigit, rfl, hdsne, hdig, hval.1, ?_⟩⟩
              · rw [heq]
                have hassemble :
                    ('_' :: (more.takeWhile Char.isDigit ++ ['x'])) ++ '.' :: ext =
                      '_' :: more := by
                  rw [List.cons_append, List.append_assoc, List.singleton_append,
                    ← hmore]
                rw [hassemble, ← hdrop, List.take_append_drop]
              · exact List.all_eq_true.mp hall
              · exact List.all_eq_true.mp hlow
              · rw [← h]
              · rw [← h]
              · rw [← h, hval.2]
            case _ hparse => simp at h
          case isFalse => simp at h
        case _ => simp at h
      case _ => simp at h
    case isFalse => simp at h
  case _ => simp at h

/-- Completeness of the path parser: every instance of the spec's key
pattern is parsed, to exactly the stated parts. -/
theorem match_req_path_complete (p : String) (parts : ReqPathParts)
    (hpat : PathPattern p parts) : match_req_path p = some parts := by
  obtain ⟨hash, sx, ext, hEq, hLen, hHex, hExtNe, hExtLow, hHash, hExt, hSx⟩ := hpat
  obtain ⟨ph, ps, pe⟩ := parts
  simp only at hHash hExt
  unfold match_req_path
  rw [hEq]
  split
  case _ rest heq =>
    injection heq with heq1 heq2
    subst heq2
    dsimp only
    rw [List.take_left' hLen, List.drop_left' hLen,
      if_pos ⟨hLen, List.all_eq_true.mpr hHex⟩]
    rcases hSx with ⟨rfl, hscale⟩ | ⟨ds, rfl, hdsne, hdsdig, hdsval, hscale⟩
    · simp only at hscale
      rw [List.nil_append]
      split
      case _ ext1 heq3 =>
        injection heq3 with _ heq4
        subst heq4
        rw [if_pos ⟨hExtNe, List.all_eq_true.mpr hExtLow⟩]
        simp only [Option.some.injEq, ReqPathParts.mk.injEq]
        exact ⟨hHash.symm, hscale.symm, hExt.symm⟩
      case _ more heq3 =>
        injection heq3 with h1 _
        exact absurd h1 (by decide)
      case _ hne1 hne2 =>
        exact absurd rfl (hne1 ext)
    · simp only at hscale
      rw [List.cons_append, List.append_assoc, List.singleton_append]
      split
      case _ ext1 heq3 =>
        injection heq3 with h1 _
        exact absurd h1 (by decide)
      case _ more heq3 =>
        injection heq3 with _ heq4
        subst heq4
        rw [(takeWhile_digits_append ds ('.' :: ext) hdsdig).2,
          (takeWhile_digits_append ds ('.' :: ext) hdsdig).1]
        split
        case _ ext1 heq5 =>
          injection heq5 with _ heq6
          injection heq6 with _ heq7
          subst heq7
          rw [if_pos ⟨hdsne, hExtNe, List.all_eq_true.mpr hExtLow⟩]
          unfold parse_u32
          rw [if_pos hdsval]
          simp only [Option.some.injEq, ReqPathParts.mk.injEq]
          exact ⟨hHash.symm, hscale.symm, hExt.symm⟩
        case _ hne3 =>
          exact absurd rfl (hne3 ext)
      case _ hne1 hne2 =>
        exact absurd rfl (hne2 (ds ++ 'x' :: '.' :: ext))
  case _ hne =>
    exact absurd rfl (hne (hash ++ (sx ++ ('.' :: ext))))

/-- C4. The key parser returns `some (hash, scale, ext)` exactly when the
path matches the key pattern: a leading slash, 64 lowercase hex characters,
an optional `_<digits>x` suffix whose digits parse as an unsigned 32-bit
integer (scale defaulting to 1 when the suffix is absent, and with no
upper-bound validation on the scale value beyond the `u32` parse), a
literal dot, then one or more lowercase letters.  Deviations — wrong hash
length, uppercase hex, a non-digit scale, a missing extension — yield no
match, and an arbitrarily large in-range scale such as 4194304 is accepted.
The parse is a pure function of the path. -/
theorem C4_match_req_path :
    (∀ (p : String) (parts : ReqPathParts),
      match_req_path p = some parts ↔ PathPattern p parts) ∧
    match_req_path
      "/aaaaaaaaaaaaaaaaaaaaaaaaaaaaaaaaaaaaaaaaaaaaaaaaaaaaaaaaaaaaaaa.png"
      = none ∧
    match_req_path
      "/Aaaaaaaaaaaaaaaaaaaaaaaaaaaaaaaaaaaaaaaaaaaaaaaaaaaaaaaaaaaaaaaa.png"
      = none ∧
    match_req_path
      "/aaaaaaaaaaaaaaaaaaaaaaaaaaaaaaaaaaaaaaaaaaaaaaaaaaaaaaaaaaaaaaaa_bx.png"
      = none ∧
    match_req_path
      "/aaaaaaaaaaaaaaaaaaaaaaaaaaaaaaaaaaaaaaaaaaaaaaaaaaaaaaaaaaaaaaaa_2x"
      = none ∧
    match_req_path "/notahash_2x.png" = none ∧
    match_req_path
      "/aaaaaaaaaaaaaaaaaaaaaaaaaaaaaaaaaaaaaaaaaaaaaaaaaaaaaaaaaaaaaaaa_4194304x.png"
      = some ⟨"aaaaaaaaaaaaaaaaaaaaaaaaaaaaaaaaaaaaaaaaaaaaaaaaaaaaaaaaaaaaaaaa",
          4194304, "png"⟩ ∧
    match_req_path
      "/aaaaaaaaaaaaaaaaaaaaaaaaaaaaaaaaaaaaaaaaaaaaaaaaaaaaaaaaaaaaaaaa.png"
      = some ⟨"aaaaaaaaaaaaaaaaaaaaaaaaaaaaaaaaaaaaaaaaaaaaaaaaaaaaaaaaaaaaaaaa",
          1, "png"⟩ :=
  ⟨fun p parts => ⟨match_req_path_sound p parts, match_req_path_complete p parts⟩,
    by decide, by decide, by decide, by decide, by decide, by decide, by decide⟩

/-- On exact integer upscales that stay within `u32` range, the image
crate's aspect-preserving dimension computation returns the products
unchanged. -/
theorem resize_dimensions_exact (w h k : Nat) (hw : 0 < w) (hh : 0 < h)
    (hk : 1 ≤ k) (hwk : w * k ≤ U32MAX) (hhk : h * k ≤ U32MAX) :
    resize_dimensions w h (w * k) (h * k) = (w * k, h * k) := by
  have hw0 : ¬ (w = 0) := by omega
  have hh0 : ¬ (h = 0) := by omega
  have e1 : fdiv (w * k) w = .fin (k : ℚ) := by
    unfold fdiv
    rw [if_neg hw0]
    congr 1
    push_cast
    rw [mul_div_cancel_left₀]
    exact_mod_cast hw0
  have e2 : fdiv (h * k) h = .fin (k : ℚ) := by
    unfold fdiv
    rw [if_neg hh0]
    congr 1
    push_cast
    rw [mul_div_cancel_left₀]
    exact_mod_cast hh0
  have e3 : fmin (.fin (k : ℚ)) (.fin (k : ℚ)) = .fin (k : ℚ) := by
    simp [fmin]
  have e4w : fmul w (.fin (k : ℚ)) = .fin ((w : ℚ) * (k : ℚ)) := rfl
  have e4h : fmul h (.fin (k : ℚ)) = .fin ((h : ℚ) * (k : ℚ)) := rfl
  have e5w : froundU64 (.fin ((w : ℚ) * (k : ℚ))) = w * k := by
    simp only [froundU64]
    rw [show (w : ℚ) * (k : ℚ) = ((w * k : ℕ) : ℚ) by push_cast; ring]
    rw [round_natCast, Int.toNat_natCast]
    unfold U64MAX
    unfold U32MAX at hwk
    omega
  have e5h : froundU64 (.fin ((h : ℚ) * (k : ℚ))) = h * k := by
    simp only [froundU64]
    rw [show (h : ℚ) * (k : ℚ) = ((h * k : ℕ) : ℚ) by push_cast; ring]
    rw [round_natCast, Int.toNat_natCast]
    unfold U64MAX
    unfold U32MAX at hhk
    omega
  have h1w : 1 ≤ w * k := Nat.mul_le_mul hw hk
  have h1h : 1 ≤ h * k := Nat.mul_le_mul hh hk
  unfold resize_dimensions
  rw [e1, e2]
  dsimp only
  rw [e3, e4w, e4h, e5w, e5h]
  have mw : max (w * k) 1 = w * k := by omega
  have mh : max (h * k) 1 = h * k := by omega
  rw [mw, mh, if_neg (by omega), if_neg (by omega)]

/-- C6 (amended). For every image with positive dimensions and every scale
factor `k ≥ 1` whose products with the dimensions stay below 2^32, `upscale`
is a pure function producing an image of dimensions exactly
`(w * k, h * k)`; for `k = 1` it returns the image itself (identity,
content included). -/
theorem C6_upscale_dimensions (img : Image) (k : Nat)
    (hw : 0 < img.width) (hh : 0 < img.height) (hk : 1 ≤ k)
    (hwk : img.width * k < U32) (hhk : img.height * k < U32) :
    (upscale_image img k).width = img.width * k ∧
    (upscale_image img k).height = img.height * k ∧
    (k = 1 → upscale_image img k = img) := by
  obtain ⟨w, h, pix⟩ := img
  simp only [Image.width, Image.height] at *
  have ew : w * k % U32 = w * k := Nat.mod_eq_of_lt hwk
  have eh : h * k % U32 = h * k := Nat.mod_eq_of_lt hhk
  by_cases hk1 : k = 1
  · subst hk1
    have hid : upscale_image ⟨w, h, pix⟩ 1 = ⟨w, h, pix⟩ := by
      unfold upscale_image Image.resize
      simp only [Image.width, Image.height] at *
      rw [ew, eh, Nat.mul_one, Nat.mul_one, if_pos ⟨rfl, rfl⟩]
    rw [hid]
    exact ⟨by simp, by simp, fun _ => rfl⟩
  · have hne : ¬ (w * k = w ∧ h * k = h) := by
      rintro ⟨hw2, _⟩
      exact hk1 (Nat.eq_of_mul_eq_mul_left hw (by omega))
    have hrd := resize_dimensions_exact w h k hw hh hk
      (by unfold U32MAX; unfold U32 at hwk; omega)
      (by unfold U32MAX; unfold U32 at hhk; omega)
    unfold upscale_image Image.resize
    simp only [Image.width, Image.height]
    rw [ew, eh, if_neg hne, hrd]
    exact ⟨rfl, rfl, fun hcon => absurd hcon hk1⟩

/-- C6 witness: the theorem applied to a 3×2 image at scale 4, giving a
12×8 result. -/
theorem C6_upscale_dimensions_witness :
    (upscale_image ⟨3, 2, fun _ _ => 0⟩ 4).width = 3 * 4 ∧
    (upscale_image ⟨3, 2, fun _ _ => 0⟩ 4).height = 2 * 4 ∧
    (4 = 1 → upscale_image ⟨3, 2, fun _ _ => 0⟩ 4 = ⟨3, 2, fun _ _ => 0⟩) :=
  C6_upscale_dimensions ⟨3, 2, fun _ _ => 0⟩ 4 (by decide) (by decide)
    (by decide) (by decide) (by decide)

/-- C6 counterexample: the claim as stated fails at scale factor 0 — the
image crate clamps the target dimensions to at least 1×1, so upscaling a
1×1 image by 0 yields a 1×1 image, not the 0×0 the formula
`(w*k, h*k)` demands.  (Scale 0 is reachable: the on-demand path parses
`_0x` paths to scale 0 and calls `upscale_image` with it.) -/
theorem C6_upscale_counterexample :
    ¬ ((upscale_image ⟨1, 1, fun _ _ => 0⟩ 0).width = 1 * 0 ∧
       (upscale_image ⟨1, 1, fun _ _ => 0⟩ 0).height = 1 * 0) := by
  have e0 : fdiv 0 1 = .fin 0 := by
    unfold fdiv
    norm_num
  have e3 : fmin (.fin 0) (.fin 0) = F64.fin 0 := by simp [fmin]
  have e4 : fmul 1 (.fin 0) = F64.fin ((1 : ℚ) * 0) := rfl
  have e5 : froundU64 (F64.fin ((1 : ℚ) * 0)) = 0 := by
    simp [froundU64]
  have hrd : resize_dimensions 1 1 (1 * 0 % U32) (1 * 0 % U32) = (1, 1) := by
    have h0 : 1 * 0 % U32 = 0 := by simp
    rw [h0]
    unfold resize_dimensions
    rw [e0]
    dsimp only
    rw [e3, e4, e5]
    norm_num [U32MAX]
  have hwidth : (upscale_image ⟨1, 1, fun _ _ => 0⟩ 0).width = 1 := by
    unfold upscale_image Image.resize
    simp only [Image.width, Image.height]
    rw [if_neg (by simp [U32]), hrd]
    rfl
  intro hcon
  rw [hwidth] at hcon
  omega

/-! ## Uploader infrastructure lemmas -/

/-- The result component of an upload task never reads the bucket state. -/
theorem uploadTask_fst (env : UploadEnv) (img : Image) (hash : String)
    (s : Nat) (b : BucketState) :
    (uploadTask env img hash s b).1 = taskRes env img hash s := by
  cases he : env.encode (scaledFor img s) <;>
    simp only [uploadTask, taskRes, he] <;>
    first
      | rfl
      | (split <;> rfl)

/-- The result list of the fan-out is the per-scale results in task order,
independently of the store state. -/
theorem runTasks_fst (env : UploadEnv) (img : Image) (hash : String) :
    ∀ (ss : List Nat) (b : BucketState),
      (runTasks env img hash ss b).1 = ss.map (taskRes env img hash)
  | [], _ => rfl
  | s :: ss, b => by
    simp only [runTasks, List.map_cons]
    rw [uploadTask_fst, runTasks_fst env img hash ss]

/-- A successful per-scale task result is exactly the record for that
scale: derivative key, scale, and the (possibly upscaled) dimensions. -/
theorem taskRes_ok (env : UploadEnv) (img : Image) (hash : String) (s : Nat)
    (r : UploadedImage) (h : taskRes env img hash s = .ok r) :
    r = ⟨keyOf hash s, s, (scaledFor img s).width, (scaledFor img s).height⟩ := by
  unfold taskRes uploadTask at h
  dsimp only at h
  cases he : env.encode (scaledFor img s)
  · rw [he] at h
    simp at h
  · rw [he] at h
    dsimp only at h
    split at h
    · simp at h
    · dsimp only at h
      injection h with h
      exact h.symm

/-- Any task-result list containing an error collects to an error. -/
theorem collectE_error_of_mem (rs : List (Except Unit UploadedImage))
    (h : Except.error () ∈ rs) : collectE rs = .error () := by
  induction rs with
  | nil => cases h
  | cons r rs ih =>
    cases r with
    | error e => rfl
    | ok a =>
      have hm : Except.error () ∈ rs := by
        rcases List.mem_cons.mp h with hc | hm
        · exact absurd hc (by simp)
        · exact hm
      simp only [collectE, ih hm]
      rfl

/-- Collecting the mapped per-scale results into a success determines every
record: the scales come back in task order and each record carries the
derivative key and upscaled dimensions of its scale. -/
theorem collect_map_ok (env : UploadEnv) (img : Image) (hash : String) :
    ∀ (ss : List Nat) (lst : List UploadedImage),
      collectE (ss.map (taskRes env img hash)) = .ok lst →
      lst.map (fun r => r.scale) = ss ∧
      ∀ r ∈ lst, r.name = keyOf hash r.scale ∧
        r.width = (scaledFor img r.scale).width ∧
        r.height = (scaledFor img r.scale).height := by
  intro ss
  induction ss with
  | nil =>
    intro lst h
    simp only [List.map_nil, collectE] at h
    injection h with h
    subst h
    exact ⟨rfl, by simp⟩
  | cons s ss ih =>
    intro lst h
    simp only [List.map_cons] at h
    cases ht : taskRes env img hash s with
    | error e =>
      rw [ht] at h
      simp [collectE] at h
    | ok r =>
      rw [ht] at h
      simp only [collectE] at h
      cases hc : collectE (ss.map (taskRes env img hash)) with
      | error e => rw [hc] at h; simp [Except.map] at h
      | ok l2 =>
        rw [hc] at h
        simp only [Except.map, Option.map] at h
        injection h with h
        subst h
        obtain ⟨htail, hprops⟩ := ih l2 hc
        have hr := taskRes_ok env img hash s r ht
        constructor
        · simp only [List.map_cons, htail]
          rw [hr]
        · intro q hq
          rcases List.mem_cons.mp hq with rfl | hq2
          · rw [hr]
            exact ⟨rfl, rfl, rfl⟩
          · exact hprops q hq2

/-- C5. Every successful ingest returns exactly one record per generated
scale factor, ordered by ascending scale (the fan-in collects in task
order, not completion order), and each record's name follows the
derivative-key scheme: `{hash}.png` at scale 1 and `{hash}_{scale}x.png`
above it. -/
theorem C5_upload_records (env : UploadEnv) (img : Image) (hash : String)
    (b : BucketState) (lst : List UploadedImage)
    (hw : img.width < U32) (hh : img.height < U32)
    (hok : (upload_all env img hash b).1 = .ok lst) :
    lst.map (fun r => r.scale) = generate_scales (max img.width img.height) ∧
    List.Pairwise (· < ·) (lst.map (fun r => r.scale)) ∧
    ∀ r ∈ lst, r.name = (if r.scale = 1 then hash ++ ".png"
      else hash ++ "_" ++ toString r.scale ++ "x.png") := by
  have h1 : collectE ((generate_scales (max img.width img.height)).map
      (taskRes env img hash)) = .ok lst := by
    unfold upload_all at hok
    dsimp only at hok
    rw [runTasks_fst] at hok
    exact hok
  obtain ⟨hscales, hprops⟩ := collect_map_ok env img hash _ lst h1
  refine ⟨hscales, ?_, ?_⟩
  · rw [hscales, generate_scales_shape _ (by omega)]
    split_ifs <;> decide
  · intro r hr
    obtain ⟨hname, _, _⟩ := hprops r hr
    rw [hname]
    unfold keyOf
    by_cases hs1 : r.scale = 1
    · rw [if_pos hs1, if_pos hs1]
    · rw [if_neg hs1, if_neg hs1, String.append_assoc]
      rfl

/-- C5 witness: the theorem applied to a successful single-scale ingest of
a 1024×1 image (pyramid `[1]`). -/
theorem C5_upload_records_witness :
    ([⟨"h.png", 1, 1024, 1⟩] : List UploadedImage).map (fun r => r.scale) =
      generate_scales (max (1024 : Nat) 1) :=
  (C5_upload_records ⟨fun _ => some [], fun _ => false⟩ ⟨1024, 1, fun _ _ => 0⟩
    "h" (fun _ => none) [⟨"h.png", 1, 1024, 1⟩] (by decide) (by decide) rfl).1

/-- Appending different suffixes to the same string gives different
strings. -/
theorem string_append_ne (a x y : String) (hxy : x.data ≠ y.data) :
    a ++ x ≠ a ++ y := by
  intro h
  rw [String.ext_iff] at h
  simp only [String.data_append] at h
  exact hxy (List.append_cancel_left h)

/-- The derivative key of scale 1 spelled with the suffix last. -/
theorem keyOf_one (hash : String) : keyOf hash 1 = hash ++ ".png" := by
  unfold keyOf
  rw [if_pos rfl]

/-- The derivative key of a scale other than 1, spelled with the whole
suffix appended last. -/
theorem keyOf_ne_one (hash : String) (s : Nat) (hs : ¬ (s = 1)) :
    keyOf hash s = hash ++ ("_" ++ (toString s ++ ("x" ++ ".png"))) := by
  unfold keyOf
  rw [if_neg hs, String.append_assoc, String.append_assoc, String.append_assoc]

/-- Distinct scale factors of the pyramid produce distinct derivative keys
under any hash. -/
theorem keyOf_inj (hash : String) :
    ∀ s ∈ ([1, 2, 4, 8, 16] : List Nat), ∀ t ∈ ([1, 2, 4, 8, 16] : List Nat),
      keyOf hash s = keyOf hash t → s = t := by
  intro s hs t ht h
  fin_cases hs <;> fin_cases ht <;>
    first
      | rfl
      | exact absurd h (by
          rw [keyOf_one, keyOf_ne_one _ _ (by omega)]
          exact string_append_ne _ _ _ (by decide))
      | exact absurd h (by
          rw [keyOf_ne_one _ _ (by omega), keyOf_one]
          exact string_append_ne _ _ _ (by decide))
      | exact absurd h (by
          rw [keyOf_ne_one _ _ (by omega), keyOf_ne_one _ _ (by omega)]
          exact string_append_ne _ _ _ (by decide))

/-- Scales drawn from the pyramid are among the fixed factor sequence. -/
theorem generate_scales_subset (long : Nat) :
    ∀ s ∈ generate_scales long, s ∈ ([1, 2, 4, 8, 16] : List Nat) :=
  fun _ hs => (List.takeWhile_sublist _).subset hs

/-- The pyramid scale list has no duplicates. -/
theorem generate_scales_nodup (long : Nat) : (generate_scales long).Nodup :=
  (List.takeWhile_sublist _).nodup (by decide)

/-- Tasks whose keys all differ from `k` leave the store unchanged at `k`. -/
theorem runTasks_preserve (env : UploadEnv) (img : Image) (hash : String) :
    ∀ (ss : List Nat) (b : BucketState) (k : String),
      (∀ t ∈ ss, keyOf hash t ≠ k) → (runTasks env img hash ss b).2 k = b k := by
  intro ss
  induction ss with
  | nil => intro b k _; rfl
  | cons t ss ih =>
    intro b k h
    simp only [runTasks]
    rw [ih _ k (fun u hu => h u (List.mem_cons_of_mem t hu))]
    unfold uploadTask
    dsimp only
    cases he : env.encode (scaledFor img t)
    · rfl
    · dsimp only
      split
      · rfl
      · dsimp only
        rw [if_neg (fun hk => (h t (List.mem_cons_self t ss)) hk.symm)]

/-- A successful per-scale write is visible in the final store at its key,
whatever happened to the other scales (no rollback). -/
theorem runTasks_write (env : UploadEnv) (img : Image) (hash : String) :
    ∀ (ss : List Nat), ss.Nodup →
      (∀ t ∈ ss, ∀ u ∈ ss, keyOf hash t = keyOf hash u → t = u) →
      ∀ (b : BucketState) (s : Nat), s ∈ ss →
      ∀ data, env.encode (scaledFor img s) = some data →
      env.putFails (keyOf hash s) = false →
      (runTasks env img hash ss b).2 (keyOf hash s) = some data := by
  intro ss
  induction ss with
  | nil => intro _ _ b s hs; cases hs
  | cons t ss ih =>
    intro hnd hinj b s hs data he hp
    simp only [runTasks]
    rcases List.mem_cons.mp hs with rfl | hmem
    · rw [runTasks_preserve]
      · unfold uploadTask
        dsimp only
        rw [he]
        dsimp only
        rw [if_neg (by rw [hp]; simp)]
        dsimp only
        rw [if_pos rfl]
      · intro u hu hequ
        have huv : u = s :=
          hinj u (List.mem_cons_of_mem _ hu) s (List.mem_cons_self _ _) hequ
        subst huv
        exact (List.nodup_cons.mp hnd).1 hu
    · exact ih (List.nodup_cons.mp hnd).2
        (fun a ha c hc =>
          hinj a (List.mem_cons_of_mem _ ha) c (List.mem_cons_of_mem _ hc))
        _ s hmem data he hp

/-- C8. If any one of the concurrent per-scale encode/store operations
fails, the whole ingest fails: `upload_all` returns an error and
`post_image` maps it to a bare 500; while every per-scale write that did
succeed stays durably in the store at its derivative key — no rollback. -/
theorem C8_fanout_failure (env : UploadEnv) (decode : Decoder) (img : Image)
    (hash : String) (b : BucketState) :
    ((∃ s ∈ generate_scales (max img.width img.height),
        taskRes env img hash s = .error ()) →
      (upload_all env img hash b).1 = .error ()) ∧
    (∀ (r : ReqBody) (data : List Nat) (fmt : ImgFmt),
      get_image_data_from_request r = .ok (data, fmt) →
      decode fmt data = .ok img →
      validate_img_dimension img = .ok () →
      (∃ s ∈ generate_scales (max img.width img.height),
        taskRes env img (sha256_hex data) s = .error ()) →
      (post_image env decode b r).1 = .error (ApiError.no_msg 500)) ∧
    (∀ s ∈ generate_scales (max img.width img.height), ∀ data,
      env.encode (scaledFor img s) = some data →
      env.putFails (keyOf hash s) = false →
      (upload_all env img hash b).2 (keyOf hash s) = some data) := by
  have herr : ∀ hsh, (∃ s ∈ generate_scales (max img.width img.height),
      taskRes env img hsh s = .error ()) →
      (upload_all env img hsh b).1 = .error () := by
    intro hsh ⟨s, hs, htask⟩
    unfold upload_all
    dsimp only
    rw [runTasks_fst]
    apply collectE_error_of_mem
    rw [← htask]
    exact List.mem_map_of_mem _ hs
  refine ⟨herr hash, ?_, ?_⟩
  · intro r data fmt hget hdec hval hex
    unfold post_image
    rw [hget]
    dsimp only
    rw [hdec]
    dsimp only
    rw [hval]
    dsimp only
    rw [herr (sha256_hex data) hex]
    rfl
  · intro s hs data he hp
    unfold upload_all
    dsimp only
    exact runTasks_write env img hash _ (generate_scales_nodup _)
      (fun t ht u hu hequ =>
        keyOf_inj hash t (generate_scales_subset _ t ht)
          u (generate_scales_subset _ u hu) hequ)
      b s hs data he hp

/-- C8 witness: the theorem's all-or-nothing part applied to an ingest
whose encoder fails. -/
theorem C8_fanout_failure_witness :
    (upload_all ⟨fun _ => none, fun _ => false⟩ ⟨1024, 1, fun _ _ => 0⟩ "h"
      (fun _ => none)).1 = .error () :=
  (C8_fanout_failure ⟨fun _ => none, fun _ => false⟩ (fun _ _ => .error .other)
    ⟨1024, 1, fun _ _ => 0⟩ "h" (fun _ => none)).1 ⟨1, by decide, rfl⟩

/-- The final store of the fan-out is the input store overlaid with the
successful writes, in task order. -/
theorem runTasks_snd_eq (env : UploadEnv) (img : Image) (hash : String) :
    ∀ (ss : List Nat) (b : BucketState),
      (runTasks env img hash ss b).2 = applyWrites (writesOf env img hash ss) b := by
  intro ss
  induction ss with
  | nil => intro b; rfl
  | cons s ss ih =>
    intro b
    simp only [runTasks, writesOf, uploadTask]
    cases he : env.encode (scaledFor img s)
    · dsimp only
      exact ih b
    · dsimp only
      split_ifs with hp
      · exact ih b
      · simp only [applyWrites]
        exact ih _

/-- Pointwise description of an overlaid store: the last write to the key
if there is one, else the underlying store. -/
theorem applyWrites_apply :
    ∀ (ws : List (String × List Nat)) (b : BucketState) (k : String),
      applyWrites ws b k =
        match lastWrite ws k with
        | some d => some d
        | none => b k := by
  intro ws
  induction ws with
  | nil => intro b k; rfl
  | cons w ws ih =>
    intro b k
    simp only [applyWrites, lastWrite]
    rw [ih]
    cases h : lastWrite ws k
    · dsimp only
      split_ifs with hk <;> rfl
    · rfl

/-- Replaying the same writes over an already-overlaid store changes
nothing: content-addressed writes are idempotent. -/
theorem applyWrites_idem (ws : List (String × List Nat)) (b : BucketState) :
    applyWrites ws (applyWrites ws b) = applyWrites ws b := by
  funext k
  rw [applyWrites_apply ws (applyWrites ws b) k]
  cases h : lastWrite ws k
  · dsimp only
  · dsimp only
    rw [applyWrites_apply, h]

/-- Running the whole fan-out twice leaves the store exactly as after the
first run. -/
theorem upload_all_snd_idem (env : UploadEnv) (img : Image) (hash : String)
    (b : BucketState) :
    (upload_all env img hash (upload_all env img hash b).2).2 =
      (upload_all env img hash b).2 := by
  unfold upload_all
  dsimp only
  simp only [runTasks_snd_eq]
  exact applyWrites_idem _ _

/-- The response value of `post_image` does not depend on the store
contents. -/
theorem post_image_fst_indep (env : UploadEnv) (decode : Decoder)
    (r : ReqBody) (b b' : BucketState) :
    (post_image env decode b r).1 = (post_image env decode b' r).1 := by
  unfold post_image
  cases hget : get_image_data_from_request r
  · rfl
  case ok val =>
    obtain ⟨data, fmt⟩ := val
    dsimp only
    cases hdec : decode fmt data
    case error e => cases e <;> rfl
    case ok img =>
      dsimp only
      cases hval : validate_img_dimension img
      case error e => rfl
      case ok u =>
        dsimp only
        have h : (upload_all env img (sha256_hex data) b).1 =
            (upload_all env img (sha256_hex data) b').1 := by
          unfold upload_all
          dsimp only
          rw [runTasks_fst, runTasks_fst]
        rw [h]

/-- Every record of a successful `post_image` is named by the derivative
key scheme over the SHA-256 of the raw extracted bytes. -/
theorem post_image_ok_names (env : UploadEnv) (decode : Decoder)
    (b : BucketState) (r : ReqBody) (data : List Nat) (fmt : ImgFmt)
    (hget : get_image_data_from_request r = .ok (data, fmt))
    (lst : List UploadedImage)
    (hok : (post_image env decode b r).1 = .ok lst) :
    ∀ rec ∈ lst, rec.name = keyOf (sha256_hex data) rec.scale := by
  unfold post_image at hok
  rw [hget] at hok
  dsimp only at hok
  cases hdec : decode fmt data with
  | error e =>
    rw [hdec] at hok
    cases e <;> simp at hok
  | ok img =>
    rw [hdec] at hok
    dsimp only at hok
    cases hval : validate_img_dimension img with
    | error e =>
      rw [hval] at hok
      simp at hok
    | ok u =>
      rw [hval] at hok
      dsimp only at hok
      have hup : (upload_all env img (sha256_hex data) b).1 = .ok lst := by
        cases hu : (upload_all env img (sha256_hex data) b).1
        · rw [hu] at hok
          simp [Except.mapError] at hok
        · rw [hu] at hok
          simp only [Except.mapError, Except.map] at hok
          injection hok with hok
          rw [hok]
      have hcoll : collectE ((generate_scales (max img.width img.height)).map
          (taskRes env img (sha256_hex data))) = .ok lst := by
        unfold upload_all at hup
        dsimp only at hup
        rw [runTasks_fst] at hup
        exact hup
      intro rec hrec
      exact ((collect_map_ok env img (sha256_hex data) _ lst hcoll).2 rec hrec).1

/-- C7. Byte-identical payloads — whether delivered raw or as a multipart
file field — hash to the same hex SHA-256 of the raw pre-decode bytes, so
both uploads address exactly the same `{hash}[_{k}x].png` key family; the
response is independent of what the store already holds (overwrite, not
conflict: a second identical upload cannot fail for already existing), and
re-running the same ingest leaves the store unchanged. -/
theorem C7_content_hash (env : UploadEnv) (decode : Decoder)
    (b1 b2 : BucketState) (r1 r2 : ReqBody) (data : List Nat)
    (fmt1 fmt2 : ImgFmt)
    (h1 : get_image_data_from_request r1 = .ok (data, fmt1))
    (h2 : get_image_data_from_request r2 = .ok (data, fmt2)) :
    (∀ lst, (post_image env decode b1 r1).1 = .ok lst →
      ∀ rec ∈ lst, rec.name = (if rec.scale = 1 then sha256_hex data ++ ".png"
        else sha256_hex data ++ "_" ++ toString rec.scale ++ "x.png")) ∧
    (∀ lst, (post_image env decode b2 r2).1 = .ok lst →
      ∀ rec ∈ lst, rec.name = (if rec.scale = 1 then sha256_hex data ++ ".png"
        else sha256_hex data ++ "_" ++ toString rec.scale ++ "x.png")) ∧
    (post_image env decode b1 r1).1 = (post_image env decode b2 r1).1 ∧
    (post_image env decode (post_image env decode b1 r1).2 r1).2 =
      (post_image env decode b1 r1).2 := by
  have hkey : ∀ (hsh : String) (rec : UploadedImage), keyOf hsh rec.scale =
      (if rec.scale = 1 then hsh ++ ".png"
        else hsh ++ "_" ++ toString rec.scale ++ "x.png") := by
    intro hsh rec
    unfold keyOf
    by_cases hs1 : rec.scale = 1
    · rw [if_pos hs1, if_pos hs1]
    · rw [if_neg hs1, if_neg hs1, String.append_assoc]
      rfl
  refine ⟨?_, ?_, post_image_fst_indep env decode r1 b1 b2, ?_⟩
  · intro lst hok rec hrec
    rw [← hkey]
    exact post_image_ok_names env decode b1 r1 data fmt1 h1 lst hok rec hrec
  · intro lst hok rec hrec
    rw [← hkey]
    exact post_image_ok_names env decode b2 r2 data fmt2 h2 lst hok rec hrec
  · unfold post_image
    cases hget : get_image_data_from_request r1
    · rfl
    case ok val =>
      obtain ⟨d, fmt⟩ := val
      dsimp only
      cases hdec : decode fmt d
      case error e => cases e <;> rfl
      case ok img =>
        dsimp only
        cases hval : validate_img_dimension img
        case error e => rfl
        case ok u =>
          dsimp only
          exact upload_all_snd_idem env img (sha256_hex d) b1

/-- C7 witness: the theorem applied to a raw and a multipart upload of the
same single byte. -/
theorem C7_content_hash_witness :
    (post_image ⟨fun _ => some [], fun _ => false⟩ (fun _ _ => .error .other)
      (fun _ => none) (.raw "image/png" [1])).1 =
    (post_image ⟨fun _ => some [], fun _ => false⟩ (fun _ _ => .error .other)
      (fun _ => some []) (.raw "image/png" [1])).1 :=
  (C7_content_hash ⟨fun _ => some [], fun _ => false⟩ (fun _ _ => .error .other)
    (fun _ => none) (fun _ => some []) (.raw "image/png" [1])
    (.form "image/png" [1]) [1] .png .png rfl rfl).2.2.1

/-- C10. On the ingest path, once geometry validation has passed, every
scale factor of the generated pyramid keeps the products `width * scale`
and `height * scale` computed inside `upscale` at or below 16384, far from
`u32` overflow (the products reduce to themselves mod 2^32); the on-demand
path has no such bound — it parses paths whose scale makes `1024 * scale`
reach 2^32. -/
theorem C10_no_overflow (img : Image) (hw : img.width < U32)
    (hh : img.height < U32) (hv : validate_img_dimension img = .ok ()) :
    (∀ s ∈ generate_scales (max img.width img.height),
      img.width * s ≤ 16384 ∧ img.height * s ≤ 16384 ∧
      img.width * s % U32 = img.width * s ∧
      img.height * s % U32 = img.height * s) ∧
    (∃ (path : String) (parts : ReqPathParts),
      match_req_path path = some parts ∧ parts.ext = "png" ∧
      U32 ≤ 1024 * parts.scale) := by
  obtain ⟨w, h, pix⟩ := img
  simp only [Image.width, Image.height] at *
  have hmax : (if h < w then w else h) = max w h := by
    rw [Nat.max_def]; split_ifs <;> omega
  have hmin : (if h < w then h else w) = min w h := by
    rw [Nat.min_def]; split_ifs <;> omega
  have hlong : max w h ≤ 1024 := by
    unfold validate_img_dimension at hv
    dsimp only at hv
    rw [hmax, hmin] at hv
    split_ifs at hv with h1 h2 h3
    unfold MAX_LONG_SIDE_LEN at h2
    omega
  constructor
  · intro s hs
    have hs16 : s ≤ 16 := by
      have hmem := generate_scales_subset _ s hs
      fin_cases hmem <;> omega
    have hws : w * s ≤ 16384 := by
      calc w * s ≤ 1024 * 16 := Nat.mul_le_mul (by omega) hs16
        _ = 16384 := by norm_num
    have hhs : h * s ≤ 16384 := by
      calc h * s ≤ 1024 * 16 := Nat.mul_le_mul (by omega) hs16
        _ = 16384 := by norm_num
    exact ⟨hws, hhs, Nat.mod_eq_of_lt (by unfold U32; omega),
      Nat.mod_eq_of_lt (by unfold U32; omega)⟩
  · exact ⟨"/aaaaaaaaaaaaaaaaaaaaaaaaaaaaaaaaaaaaaaaaaaaaaaaaaaaaaaaaaaaaaaaa_4194304x.png",
      ⟨"aaaaaaaaaaaaaaaaaaaaaaaaaaaaaaaaaaaaaaaaaaaaaaaaaaaaaaaaaaaaaaaa",
        4194304, "png"⟩, by decide, rfl, by decide⟩

/-- C10 witness: the theorem applied to a validated 100×50 image at scale
factor 1. -/
theorem C10_no_overflow_witness :
    (100 : Nat) * 1 ≤ 16384 ∧ (50 : Nat) * 1 ≤ 16384 ∧
    (100 : Nat) * 1 % U32 = 100 * 1 ∧ (50 : Nat) * 1 % U32 = 50 * 1 :=
  (C10_no_overflow ⟨100, 50, fun _ _ => 0⟩ (by decide) (by decide) rfl).1
    1 (by decide)

end Upix
